import Mathlib

/-!
# marabunta/client, package ant (funcs.go)

A shallow embedding of `isDir`, `isFile` and `RequestCertificate`.

* Go `[]byte` and Go `string` payloads are lists of byte values (`Bytes`).
* Go pointers that may be nil (`*pem.Block`, `error`) are `Option`s.
* Calls into the Go standard library (net/http, encoding/pem, crypto/x509, os)
  are fields of `Env`: the function is verified for every behaviour of them.
* Effects are explicit: `World` carries the content of the output file and
  the log of library calls made so far.
-/

namespace Ant

/-- Go byte slices; a byte is kept as a natural number. -/
abbrev Bytes := List Nat

/-- ASCII text of a Go string literal as bytes. -/
def str (s : String) : Bytes := s.toList.map Char.toNat

/-! ## Data -/

/-- The fields of `x509.Certificate` that funcs.go reads. -/
structure Certificate where
  Raw : Bytes
  RawIssuer : Bytes
  RawSubject : Bytes
  IsCA : Bool
deriving DecidableEq, Repr

/-- Go `pem.Block`; `Type_` is its field `Type`. -/
structure Block where
  Type_ : String
  Headers : List (String × String)
  Bytes : Bytes
deriving DecidableEq, Repr

-- Results of fallible library calls are compared by evaluation.
deriving instance DecidableEq for Except

/-- An `error` value produced inside the standard library. -/
structure LibError where
  code : Nat
deriving DecidableEq, Repr

/-- Go `error` values seen by the caller of funcs.go: those built by
`fmt.Errorf` inside funcs.go, with their text, and those handed back by a
library call and passed on unchanged. -/
inductive GoError where
  | errorf (text : Bytes)
  | lib (err : LibError)
deriving DecidableEq, Repr

/-! ## isDir / isFile (funcs.go 20-42) -/

/-- Go `os.ModeDir`, bit 31 of a `FileMode`. -/
def ModeDir : Nat := 2 ^ 31

/-- Go `os.ModeType`: dir, symlink, named pipe, socket, device, char device, irregular. -/
def ModeType : Nat := 2 ^ 31 + 2 ^ 27 + 2 ^ 26 + 2 ^ 25 + 2 ^ 24 + 2 ^ 21 + 2 ^ 19

/-- Go `FileMode.IsDir`: `m&ModeDir != 0`. -/
def IsDir (m : Nat) : Bool := m &&& ModeDir != 0

/-- Go `FileMode.IsRegular`: `m&ModeType == 0`. -/
def IsRegular (m : Nat) : Bool := m &&& ModeType == 0

/-- funcs.go 21-30; `stat p = none` stands for `os.Stat` returning an error.
The mask is the decimal literal 400 of the source. -/
def isDir (stat : String → Option Nat) (path : String) : Bool :=
  match stat path with
  | none => false
  | some m => if IsDir m && (m &&& 400 != 0) then true else false

/-- funcs.go 33-42. -/
def isFile (stat : String → Option Nat) (path : String) : Bool :=
  match stat path with
  | none => false
  | some m => if !IsDir m && IsRegular m && (m &&& 400 != 0) then true else false

/-! ## The reordering loop (funcs.go 140-150) -/

/-- Go `bytes.Compare`: lexicographic order, result -1, 0 or 1. -/
def bytesCompare : Bytes → Bytes → Int
  | [], [] => 0
  | [], _ :: _ => -1
  | _ :: _, [] => 1
  | x :: xs, y :: ys => if x < y then -1 else if y < x then 1 else bytesCompare xs ys

/-- The test of funcs.go 145. -/
def isSelfSignedCA (cert : Certificate) : Bool :=
  bytesCompare cert.RawIssuer cert.RawSubject == 0 && cert.IsCA

/-- The block built at funcs.go 144. -/
def certBlock (cert : Certificate) : Block :=
  Block.mk "CERTIFICATE" [] cert.Raw

/-- The `for k, cert := range certs` loop of funcs.go 143-150, from index `k`
on; `n` is `len(certs)` and `out` the slice of block pointers (nil = `none`). -/
def reorderLoop (n : Nat) : List Certificate → Nat → List (Option Block) → List (Option Block)
  | [], _, out => out
  | cert :: rest, k, out =>
    if isSelfSignedCA cert then
      reorderLoop n rest (k + 1) (out.set (n - 1) (some (certBlock cert)))
    else
      reorderLoop n rest (k + 1) (out.set k (some (certBlock cert)))

/-- The slice `out` after funcs.go 142-150. -/
def buildOut (certs : List Certificate) : List (Option Block) :=
  reorderLoop certs.length certs 0 (List.replicate certs.length none)

/-! ## RequestCertificate (funcs.go 85-162) -/

/-- What `client.Do` hands back: the status code, the bytes the body stream
delivers, and the error a later `Read` raises after them (none = EOF). -/
structure Response where
  StatusCode : Int
  Body : Bytes
  BodyErr : Option LibError
deriving DecidableEq, Repr

/-- Flags of `os.OpenFile`. -/
inductive OpenFlag where
  | O_APPEND
  | O_CREATE
  | O_WRONLY
deriving DecidableEq, Repr

/-- How one `pem.Encode(file, c)` call ends. -/
inductive EncodeStatus where
  | ok
  | failed (err : LibError)
  | panicked
deriving DecidableEq, Repr

/-- Result of one `pem.Encode(file, c)` call: the bytes that reached the file
and how the call ended. -/
structure EncodeResult where
  written : Bytes
  status : EncodeStatus
deriving DecidableEq, Repr

/-- Library calls made by `RequestCertificate`, as logged in `World.calls`. -/
inductive Call where
  | NewRequest (method url : String) (body : Bytes)
  | Do (url userAgent : String) (body : Bytes)
  | ReadAll (limit : Nat)
  | ParseCertificates (der : Bytes)
  | OpenFile (name : String) (flags : List OpenFlag) (perm : Nat)
  | Encode (b : Option Block)
  | FileClose
  | BodyClose
deriving DecidableEq, Repr

/-- The state `RequestCertificate` acts on: the content of the file named
`filepath.Join(home, "ant.crt")` (none = the file does not exist) and the log
of library calls. -/
structure World where
  file : Option Bytes
  calls : List Call
deriving DecidableEq, Repr

/-- Behaviour of the standard library during one call of `RequestCertificate`.
`Encode k c` is the `k`-th `pem.Encode(file, c)` call. -/
structure Env where
  NewRequest : String → String → Bytes → Option LibError
  Do : String → String → Bytes → Except LibError Response
  Decode : Bytes → Option Block × Bytes
  ParseCertificates : Bytes → Except LibError (List Certificate)
  Join : String → String → String
  OpenFile : String → Option LibError
  Encode : Nat → Option Block → EncodeResult
  Close : Option LibError

/-- How a call of `RequestCertificate` ends: it returns an `error` (none = nil)
or it panics. -/
inductive Outcome where
  | returned (err : Option GoError)
  | panicked
deriving DecidableEq, Repr

/-- Go `%d` of an `int`. -/
def fmtD (c : Int) : Bytes := str (toString c)

/-- funcs.go 109: `ioutil.ReadAll(io.LimitReader(res.Body, n))`. Once `n`
bytes are read the limit reader reports EOF without reading further. -/
def readAllLimit (body : Bytes) (bodyErr : Option LibError) (n : Nat) :
    Except LibError Bytes :=
  if n ≤ body.length then .ok (body.take n)
  else
    match bodyErr with
    | none => .ok body
    | some err => .error err

/-- The `for` loop of funcs.go 118-129. `fuel` bounds the number of
iterations; `none` means the bound was reached with the loop still running. -/
def pemLoop (decode : Bytes → Option Block × Bytes) :
    Nat → Bytes → Bytes → Option (Except GoError Bytes)
  | 0, _, _ => none
  | fuel + 1, b, blocks =>
    match decode b with
    | (none, _) => some (.error (.errorf (str "failed to parse certificate PEM")))
    | (some block, rest) =>
      if rest.length = 0 then some (.ok (blocks ++ block.Bytes))
      else pemLoop decode fuel rest (blocks ++ block.Bytes)

/-- Appends a call to the log. -/
def World.log (w : World) (c : Call) : World :=
  World.mk w.file (w.calls ++ [c])

/-- The decode stage, funcs.go 118-134: the PEM loop, then
`x509.ParseCertificates` on the accumulated bytes. -/
def decodeStage (env : Env) (fuel : Nat) (b : Bytes) (w : World) :
    Option (Except GoError (List Certificate) × World) :=
  match pemLoop env.Decode fuel b [] with
  | none => none
  | some (.error err) => some (.error err, w)
  | some (.ok blocks) =>
    match env.ParseCertificates blocks with
    | .error err => some (.error (.lib err), w.log (.ParseCertificates blocks))
    | .ok certs => some (.ok certs, w.log (.ParseCertificates blocks))

/-- The `for _, c := range out` loop of funcs.go 157-159. The value returned
by `pem.Encode` is dropped; the flag tells whether a call panicked. -/
def encodeLoop (env : Env) : List (Option Block) → Nat → World → Bool × World
  | [], _, w => (false, w)
  | c :: rest, k, w =>
    let r := env.Encode k c
    let w1 := World.mk (some (w.file.getD [] ++ r.written)) (w.calls ++ [Call.Encode c])
    match r.status with
    | .panicked => (true, w1)
    | _ => encodeLoop env rest (k + 1) w1

/-- The persistence step, funcs.go 152-161. -/
def persist (env : Env) (home : String) (out : List (Option Block)) (w : World) :
    Outcome × World :=
  let name := env.Join home "ant.crt"
  let w1 := w.log (.OpenFile name [.O_APPEND, .O_CREATE, .O_WRONLY] 0o640)
  match env.OpenFile name with
  | some err => (.returned (some (.lib err)), w1)
  | none =>
    let w2 := World.mk (some (w1.file.getD [])) w1.calls
    match encodeLoop env out 0 w2 with
    | (true, w3) => (.panicked, w3)
    | (false, w3) => (.returned (env.Close.map .lib), w3.log .FileClose)

/-- The part of funcs.go after `client.Do` succeeded: lines 109-161. -/
def afterResponse (env : Env) (fuel : Nat) (home : String) (res : Response) (w : World) :
    Option (Outcome × World) :=
  let w1 := w.log (.ReadAll 4096)
  match readAllLimit res.Body res.BodyErr 4096 with
  | .error err => some (.returned (some (.lib err)), w1)
  | .ok b =>
    if res.StatusCode ≠ 200 then
      some (.returned (some (.errorf (fmtD res.StatusCode ++ str " - " ++ b))), w1)
    else
      match decodeStage env fuel b w1 with
      | none => none
      | some (.error err, w2) => some (.returned (some err), w2)
      | some (.ok certs, w2) =>
        if certs.length < 2 then
          some (.returned (some (.errorf
            (str "crt must have 2 concatenated certificates: client + CA"))), w2)
        else
          some (persist env home (buildOut certs) w2)

/-- funcs.go 85-162. `none` only when the PEM loop exceeds `fuel` iterations.
The deferred `res.Body.Close()` is logged last. -/
def RequestCertificate (env : Env) (fuel : Nat) (url home id : String) (data : Bytes)
    (w : World) : Option (Outcome × World) :=
  let w1 := w.log (.NewRequest "POST" url data)
  match env.NewRequest "POST" url data with
  | some err => some (.returned (some (.lib err)), w1)
  | none =>
    let userAgent := "ant-" ++ id
    let w2 := w1.log (.Do url userAgent data)
    match env.Do url userAgent data with
    | .error err => some (.returned (some (.lib err)), w2)
    | .ok res =>
      match afterResponse env fuel home res w2 with
      | none => none
      | some (o, w3) => some (o, w3.log .BodyClose)

/-- A call that opens or writes the output file. -/
def Call.touchesFile : Call → Bool
  | .OpenFile _ _ _ => true
  | .Encode _ => true
  | .FileClose => true
  | _ => false

/-- A call of `x509.ParseCertificates`. -/
def Call.isParse : Call → Bool
  | .ParseCertificates _ => true
  | _ => false

/-! ## Statement vocabulary -/

/-- Concatenation of the PEM encodings of `certs`, `enc` being `pem.Encode`
to memory. -/
def pemConcat (enc : Block → Bytes) : List Certificate → Bytes
  | [] => []
  | c :: cs => enc (certBlock c) ++ pemConcat enc cs

/-- Concatenation of the DER payloads of `certs`. -/
def derConcat : List Certificate → Bytes
  | [] => []
  | c :: cs => c.Raw ++ derConcat cs

/-- Concatenation of the payloads of `bs`. -/
def payloads : List Block → Bytes
  | [] => []
  | blk :: bs => blk.Bytes ++ payloads bs

/-- Starting from buffer `b`, the PEM loop extracts the blocks `bs` one after
the other, each time with bytes left over, and then stands at buffer `t`. -/
def extracts (decode : Bytes → Option Block × Bytes) : Bytes → List Block → Bytes → Bool
  | b, [], t => b == t
  | b, blk :: bs, t =>
    (decode b).1 == some blk && !(decode b).2.isEmpty && extracts decode (decode b).2 bs t

/-! ## Concrete inputs

A length-prefixed framing stands in for PEM and a three-byte record for DER,
so that `RequestCertificate` can be run on explicit bodies. -/

/-- One frame: the payload length, then the payload. -/
def framedEncode (b : Block) : Bytes := b.Bytes.length :: b.Bytes

/-- Reads one frame; like `pem.Decode` it gives back the whole input when no
block is found. -/
def framedDecode : Bytes → Option Block × Bytes
  | [] => (none, [])
  | n :: rest =>
    if n ≤ rest.length then (some (Block.mk "CERTIFICATE" [] (rest.take n)), rest.drop n)
    else (none, n :: rest)

/-- A certificate whose DER is the three bytes issuer, subject, CA flag. -/
def sampleCert (issuer subject : Nat) (ca : Bool) : Certificate :=
  Certificate.mk [issuer, subject, if ca then 1 else 0] [issuer] [subject] ca

/-- Parses a sequence of three-byte records. -/
def sampleParse : Bytes → Except LibError (List Certificate)
  | [] => .ok []
  | i :: s :: f :: rest =>
    match sampleParse rest with
    | .ok cs => .ok (Certificate.mk [i, s, f] [i] [s] (f != 0) :: cs)
    | .error err => .error err
  | _ => .error (LibError.mk 1)

/-- A self-signed CA certificate. -/
def caCert : Certificate := sampleCert 7 7 true

/-- A second self-signed CA certificate. -/
def caCert2 : Certificate := sampleCert 6 6 true

/-- A client certificate issued by `caCert`. -/
def leafCert : Certificate := sampleCert 7 8 false

/-- Another certificate that is not a self-signed CA. -/
def leafCert2 : Certificate := sampleCert 7 9 false

/-- A library in which every call succeeds: the server answers `status` with
`body`, and `pem.Encode` panics on a nil block. -/
def sampleEnv (status : Int) (body : Bytes) : Env where
  NewRequest := fun _ _ _ => none
  Do := fun _ _ _ => .ok (Response.mk status body none)
  Decode := framedDecode
  ParseCertificates := sampleParse
  Join := fun dir name => dir ++ "/" ++ name
  OpenFile := fun _ => none
  Encode := fun _ c =>
    match c with
    | some blk => EncodeResult.mk (framedEncode blk) .ok
    | none => EncodeResult.mk [] .panicked
  Close := none

/-- As `sampleEnv` with status 200, but the first `pem.Encode` call fails
(no space left on the device) after writing nothing. -/
def diskFullEnv (body : Bytes) : Env where
  NewRequest := fun _ _ _ => none
  Do := fun _ _ _ => .ok (Response.mk 200 body none)
  Decode := framedDecode
  ParseCertificates := sampleParse
  Join := fun dir name => dir ++ "/" ++ name
  OpenFile := fun _ => none
  Encode := fun k c =>
    match k, c with
    | 0, _ => EncodeResult.mk [] (.failed (LibError.mk 28))
    | _, some blk => EncodeResult.mk (framedEncode blk) .ok
    | _, none => EncodeResult.mk [] .panicked
  Close := none

/-- The world before the call: no output file, empty log. -/
def emptyWorld : World := World.mk none []

/-! ## The reordering loop: lemmas -/

theorem reorderLoop_length (n : Nat) (cs : List Certificate) (k : Nat)
    (out : List (Option Block)) : (reorderLoop n cs k out).length = out.length := by
  induction cs generalizing k out with
  | nil => rfl
  | cons c rest ih =>
    unfold reorderLoop
    split <;> simp [ih]

/-- Slots other than the last one: slot `i` is written only by iteration `i`,
and only when certificate `i` fails the test of line 145. -/
theorem reorderLoop_inner (n : Nat) (cs : List Certificate) (k : Nat)
    (out : List (Option Block)) (i : Nat) (hi : i ≠ n - 1)
    (hlen : k + cs.length ≤ out.length) :
    (reorderLoop n cs k out)[i]? =
      if k ≤ i then
        match cs[i - k]? with
        | some c => if isSelfSignedCA c then out[i]? else some (some (certBlock c))
        | none => out[i]?
      else out[i]? := by
  induction cs generalizing k out with
  | nil => simp [reorderLoop]
  | cons c rest ih =>
    simp only [List.length_cons] at hlen
    unfold reorderLoop
    by_cases hc : isSelfSignedCA c = true
    · rw [if_pos hc, ih (k + 1) _ (by simp; omega)]
      rw [List.getElem?_set_ne (Ne.symm hi)]
      by_cases hk : k + 1 ≤ i
      · have e : i - k = (i - (k + 1)) + 1 := by omega
        rw [if_pos hk, if_pos (by omega), e, List.getElem?_cons_succ]
      · rw [if_neg hk]
        by_cases hk2 : k ≤ i
        · have e : i - k = 0 := by omega
          rw [if_pos hk2, e]
          simp [hc]
        · rw [if_neg hk2]
    · rw [if_neg hc, ih (k + 1) _ (by simp; omega)]
      by_cases hk : k + 1 ≤ i
      · have e : i - k = (i - (k + 1)) + 1 := by omega
        rw [if_pos hk, if_pos (by omega), e, List.getElem?_cons_succ]
        rw [List.getElem?_set_ne (by omega)]
      · rw [if_neg hk]
        by_cases hk2 : k ≤ i
        · have e : i - k = 0 := by omega
          have e2 : i = k := by omega
          rw [if_pos hk2, e]
          subst e2
          have hlt : i < out.length := by omega
          simp [hc, List.getElem?_set_self hlt]
        · rw [if_neg hk2, List.getElem?_set_ne (by omega)]

/-- The last slot is written by the last iteration, whichever branch it takes. -/
theorem reorderLoop_last (n : Nat) (cs : List Certificate) (k : Nat)
    (out : List (Option Block)) (c : Certificate) (hc : cs.getLast? = some c)
    (hk : k + cs.length = n) (hlen : out.length = n) :
    (reorderLoop n cs k out)[n - 1]? = some (some (certBlock c)) := by
  induction cs generalizing k out with
  | nil => simp at hc
  | cons d rest ih =>
    simp only [List.length_cons] at hk
    cases rest with
    | nil =>
      simp at hc
      subst hc
      simp only [List.length_nil] at hk
      have e : k = n - 1 := by omega
      have hlt : n - 1 < out.length := by omega
      simp only [reorderLoop]
      subst e
      split <;> exact List.getElem?_set_self hlt
    | cons d2 rest2 =>
      rw [List.getLast?_cons_cons] at hc
      unfold reorderLoop
      split
      · exact ih (k + 1) _ hc (by simp only [List.length_cons] at hk ⊢; omega) (by simp [hlen])
      · exact ih (k + 1) _ hc (by simp only [List.length_cons] at hk ⊢; omega) (by simp [hlen])

/-- Closed form of `out`: record `i` stays at index `i`; a slot before the
last one is nil when its record passes the test. -/
theorem buildOut_getElem? (certs : List Certificate) (i : Nat) :
    (buildOut certs)[i]? =
      if i + 1 = certs.length then certs[i]?.map (fun c => some (certBlock c))
      else certs[i]?.map (fun c => if isSelfSignedCA c then none else some (certBlock c)) := by
  unfold buildOut
  by_cases hi : i + 1 = certs.length
  · rw [if_pos hi]
    have e : i = certs.length - 1 := by omega
    have hl : certs.getLast? = certs[i]? := by rw [List.getLast?_eq_getElem?, e]
    have hlt : i < certs.length := by omega
    rw [List.getElem?_eq_getElem hlt] at hl ⊢
    have h := reorderLoop_last certs.length certs 0 (List.replicate certs.length none) _ hl
      (by simp) (by simp)
    rw [← e] at h
    simpa using h
  · have hlen : 0 + certs.length ≤ (List.replicate certs.length (none : Option Block)).length := by
      simp
    rw [if_neg hi]
    by_cases h0 : certs.length = 0
    · have hnil : certs = [] := List.length_eq_zero.mp h0
      subst hnil
      simp [reorderLoop]
    have hne : i ≠ certs.length - 1 := by omega
    rw [reorderLoop_inner certs.length certs 0 _ i hne hlen]
    simp only [Nat.zero_le, if_true, Nat.sub_zero]
    by_cases hlt : i < certs.length
    · rw [List.getElem?_eq_getElem hlt]
      simp [List.getElem?_replicate, hlt]
      split <;> rfl
    · rw [List.getElem?_eq_none (by omega)]
      simp [List.getElem?_replicate, hlt]

theorem buildOut_length (certs : List Certificate) :
    (buildOut certs).length = certs.length := by
  simp [buildOut, reorderLoop_length]

/-! ## RequestCertificate: lemmas -/

theorem readAllLimit_length (body : Bytes) (bodyErr : Option LibError) (n : Nat) (b : Bytes)
    (h : readAllLimit body bodyErr n = .ok b) : b.length ≤ n := by
  unfold readAllLimit at h
  split at h
  · injection h with h
    subst h
    simp
  · split at h
    · injection h with h
      subst h
      omega
    · cases h

/-- The PEM loop can only fail with the error of line 123. -/
theorem pemLoop_error (decode : Bytes → Option Block × Bytes) (fuel : Nat) (b acc : Bytes)
    (err : GoError) (h : pemLoop decode fuel b acc = some (.error err)) :
    err = .errorf (str "failed to parse certificate PEM") := by
  induction fuel generalizing b acc with
  | zero => simp [pemLoop] at h
  | succ fuel ih =>
    unfold pemLoop at h
    split at h
    · injection h with h
      injection h with h
      exact h.symm
    · split at h
      · cases h
      · exact ih _ _ h

/-- When the loop extracts the blocks `bs` and then meets a buffer from which
no block can be extracted, it fails. -/
theorem pemLoop_fails (decode : Bytes → Option Block × Bytes) (bs : List Block) (t : Bytes)
    (fuel : Nat) (b acc : Bytes) (hex : extracts decode b bs t = true)
    (hnone : (decode t).1 = none) (hfuel : bs.length < fuel) :
    pemLoop decode fuel b acc = some (.error (.errorf (str "failed to parse certificate PEM"))) := by
  induction bs generalizing fuel b acc with
  | nil =>
    simp only [extracts, beq_iff_eq] at hex
    subst hex
    cases fuel with
    | zero => simp at hfuel
    | succ fuel =>
      unfold pemLoop
      split
      · rfl
      · rename_i heq
        rw [heq] at hnone
        cases hnone
  | cons blk bs ih =>
    simp only [extracts, Bool.and_eq_true, beq_iff_eq, Bool.not_eq_true', List.isEmpty_eq_false]
      at hex
    obtain ⟨⟨h1, h2⟩, h3⟩ := hex
    cases fuel with
    | zero => simp at hfuel
    | succ fuel =>
      simp only [List.length_cons] at hfuel
      unfold pemLoop
      split
      · rename_i heq
        simp [heq] at h1
      · rename_i block rest heq
        rw [heq] at h2 h3
        have hr : ¬ rest.length = 0 := by
          intro h0
          exact h2 (List.length_eq_zero.mp h0)
        rw [if_neg hr]
        exact ih fuel rest _ h3 (by omega)

/-- When the loop ends successfully, its last iteration extracted a block and
left an empty buffer, and the accumulated bytes are the payloads in order. -/
theorem pemLoop_ok (decode : Bytes → Option Block × Bytes) (fuel : Nat) (b acc blocks : Bytes)
    (h : pemLoop decode fuel b acc = some (.ok blocks)) :
    ∃ bs last blk, extracts decode b bs last = true ∧ decode last = (some blk, []) ∧
      blocks = acc ++ payloads bs ++ blk.Bytes := by
  induction fuel generalizing b acc with
  | zero => simp [pemLoop] at h
  | succ fuel ih =>
    unfold pemLoop at h
    split at h
    · cases h
    · rename_i block rest heq
      split at h
      · rename_i h0
        injection h with h
        injection h with h
        have hr : rest = [] := List.length_eq_zero.mp h0
        subst hr
        exact ⟨[], b, block, by simp [extracts], heq, by simp [payloads, h]⟩
      · rename_i h0
        obtain ⟨bs, last, blk, hex, hlast, hbl⟩ := ih _ _ h
        refine ⟨block :: bs, last, blk, ?_, hlast, ?_⟩
        · have hr : rest ≠ [] := fun hr => h0 (by simp [hr])
          simp [extracts, heq, hex, hr]
        · simp [payloads, hbl]

/-- The loop on a concatenation of encodings, given that decoding undoes
encoding: it accumulates the payloads in input order. -/
theorem pemLoop_pemConcat (decode : Bytes → Option Block × Bytes) (enc : Block → Bytes)
    (henc : ∀ c, enc (certBlock c) ≠ [])
    (hdec : ∀ c cs, (decode (enc (certBlock c) ++ pemConcat enc cs)).1.map Block.Bytes
        = some c.Raw ∧ (decode (enc (certBlock c) ++ pemConcat enc cs)).2 = pemConcat enc cs)
    (c : Certificate) (cs : List Certificate) (fuel : Nat) (acc : Bytes)
    (hfuel : cs.length < fuel) :
    pemLoop decode fuel (pemConcat enc (c :: cs)) acc = some (.ok (acc ++ derConcat (c :: cs))) := by
  induction cs generalizing c fuel acc with
  | nil =>
    cases fuel with
    | zero => simp at hfuel
    | succ fuel =>
      obtain ⟨h1, h2⟩ := hdec c []
      simp only [pemConcat] at h1 h2 ⊢
      unfold pemLoop
      split
      · rename_i heq
        rw [heq] at h1
        simp at h1
      · rename_i block rest heq
        rw [heq] at h1 h2
        simp only [Option.map_some', Option.some.injEq] at h1
        simp only at h2
        subst h2
        simp [derConcat, h1]
  | cons d ds ih =>
    cases fuel with
    | zero => simp at hfuel
    | succ fuel =>
      simp only [List.length_cons] at hfuel
      obtain ⟨h1, h2⟩ := hdec c (d :: ds)
      have hstep : pemConcat enc (c :: d :: ds) = enc (certBlock c) ++ pemConcat enc (d :: ds) := rfl
      rw [hstep]
      unfold pemLoop
      split
      · rename_i heq
        rw [heq] at h1
        simp at h1
      · rename_i block rest heq
        rw [heq] at h1 h2
        simp only [Option.map_some', Option.some.injEq] at h1
        simp only at h2
        subst h2
        have hne : ¬ (pemConcat enc (d :: ds)).length = 0 := by
          intro h0
          have h00 := List.length_eq_zero.mp h0
          simp only [pemConcat, List.append_eq_nil] at h00
          exact henc d h00.1
        rw [if_neg hne, ih d fuel _ (by omega), h1]
        simp [derConcat]

/-- After `http.NewRequest` and `client.Do` succeeded, `RequestCertificate`
is `afterResponse` followed by the deferred close of the body. -/
theorem RequestCertificate_afterResponse (env : Env) (fuel : Nat) (url home id : String)
    (data : Bytes) (w : World) (res : Response)
    (hreq : env.NewRequest "POST" url data = none)
    (hdo : env.Do url ("ant-" ++ id) data = .ok res) :
    RequestCertificate env fuel url home id data w =
      match afterResponse env fuel home res
          ((w.log (.NewRequest "POST" url data)).log (.Do url ("ant-" ++ id) data)) with
      | none => none
      | some (o, w3) => some (o, w3.log .BodyClose) := by
  simp only [RequestCertificate, hreq, hdo]

/-- The persistence step never returns an error built by `fmt.Errorf`. -/
theorem persist_not_errorf (env : Env) (home : String) (out : List (Option Block)) (w : World)
    (text : Bytes) : (persist env home out w).1 ≠ .returned (some (.errorf text)) := by
  unfold persist
  simp only []
  split
  · simp
  · split
    · simp
    · cases env.Close <;> simp

/-- The sample framing reads back what it wrote, whatever follows. -/
theorem framedDecode_framedEncode (c : Certificate) (rest : Bytes) :
    framedDecode (framedEncode (certBlock c) ++ rest) = (some (certBlock c), rest) := by
  simp [framedDecode, framedEncode, certBlock]

/-- The sample framing meets the decoding hypothesis of the round trip. -/
theorem framed_round_trip (c : Certificate) (cs : List Certificate) :
    (framedDecode (framedEncode (certBlock c) ++ pemConcat framedEncode cs)).1.map Block.Bytes
      = some c.Raw ∧
    (framedDecode (framedEncode (certBlock c) ++ pemConcat framedEncode cs)).2
      = pemConcat framedEncode cs := by
  rw [framedDecode_framedEncode]
  exact ⟨rfl, rfl⟩

/-! ## The reordering loop: claims -/

/-- C7: for a list of n >= 1 certificates the loop of lines 142-150 never
moves a record to another index. `out` has n slots; the last slot holds the
block of the last input certificate; a slot k < n-1 holds the block of
certificate k when that certificate fails the self-signed-CA test and is nil
when it passes. So `out` has no nil slot exactly when no certificate before
the last position passes the test. -/
theorem reorder_keeps_every_index (certs : List Certificate) (hn : 1 ≤ certs.length) :
    (buildOut certs).length = certs.length ∧
    (buildOut certs)[certs.length - 1]? =
      certs[certs.length - 1]?.map (fun c => some (certBlock c)) ∧
    (∀ k, k < certs.length - 1 →
      (buildOut certs)[k]? =
        certs[k]?.map (fun c => if isSelfSignedCA c then none else some (certBlock c))) ∧
    ((∀ k, k < certs.length → (buildOut certs)[k]? ≠ some none) ↔
      (∀ k, k < certs.length - 1 → ∀ c, certs[k]? = some c → isSelfSignedCA c = false)) := by
  refine ⟨buildOut_length certs, ?_, ?_, ?_, ?_⟩
  · rw [buildOut_getElem?, if_pos (by omega)]
  · intro k hk
    rw [buildOut_getElem?, if_neg (by omega)]
  · intro h k hk c hc
    have hk2 := h k (by omega)
    rw [buildOut_getElem?, if_neg (by omega), hc] at hk2
    cases hca : isSelfSignedCA c with
    | false => rfl
    | true => simp [hca] at hk2
  · intro h k hk
    rw [buildOut_getElem?]
    have hget : certs[k]? = some certs[k] := List.getElem?_eq_getElem hk
    by_cases hlast : k + 1 = certs.length
    · rw [if_pos hlast, hget]
      simp
    · rw [if_neg hlast, hget]
      have hca := h k (by omega) _ hget
      simp [hca]

/-- Witness for C7 on the two-certificate list CA, client. -/
theorem reorder_keeps_every_index_witness :
    1 ≤ [caCert, leafCert].length ∧
    (buildOut [caCert, leafCert])[1]? = some (some (certBlock leafCert)) ∧
    (buildOut [caCert, leafCert])[0]? = some none :=
  ⟨by decide,
   (reorder_keeps_every_index [caCert, leafCert] (by decide)).2.1,
   (reorder_keeps_every_index [caCert, leafCert] (by decide)).2.2.1 0 (by decide)⟩

/-- C1 (the code departs from it): the list CA, client has length 2 and
exactly one record passing the self-signed-CA test, at index 0. The loop
leaves slot 0 nil and puts the client block in the last slot: the CA block
is in no slot of `out`. -/
theorem ca_not_last_is_dropped :
    [caCert, leafCert].length = 2 ∧
    [caCert, leafCert].filter isSelfSignedCA = [caCert] ∧
    buildOut [caCert, leafCert] = [none, some (certBlock leafCert)] ∧
    some (certBlock caCert) ∉ buildOut [caCert, leafCert] := by
  decide

/-- C8 as stated fails: in the list client, client2 no record passes the
test, and the final slot holds the block of the last record; it is not nil. -/
theorem no_ca_last_slot_filled :
    2 ≤ [leafCert, leafCert2].length ∧
    (∀ c ∈ [leafCert, leafCert2], isSelfSignedCA c = false) ∧
    (buildOut [leafCert, leafCert2])[[leafCert, leafCert2].length - 1]? =
      some (some (certBlock leafCert2)) ∧
    (buildOut [leafCert, leafCert2])[[leafCert, leafCert2].length - 1]? ≠ some none := by
  decide

/-- C8 amended: when no record of a list of n >= 2 certificates passes the
test, every slot of `out` is filled, the final one included: slot k holds the
block of certificate k. -/
theorem no_ca_identity (certs : List Certificate) (_hn : 2 ≤ certs.length)
    (hno : ∀ c ∈ certs, isSelfSignedCA c = false) :
    buildOut certs = certs.map (fun c => some (certBlock c)) := by
  apply List.ext_getElem?
  intro i
  rw [buildOut_getElem?, List.getElem?_map]
  by_cases hi : i + 1 = certs.length
  · rw [if_pos hi]
  · rw [if_neg hi]
    by_cases hlt : i < certs.length
    · rw [List.getElem?_eq_getElem hlt]
      have hca := hno certs[i] (List.getElem_mem hlt)
      simp [hca]
    · rw [List.getElem?_eq_none (by omega)]
      rfl

/-- Witness for C8 amended. -/
theorem no_ca_identity_witness :
    2 ≤ [leafCert, leafCert2].length ∧
    (∀ c ∈ [leafCert, leafCert2], isSelfSignedCA c = false) ∧
    buildOut [leafCert, leafCert2] = [some (certBlock leafCert), some (certBlock leafCert2)] :=
  ⟨by decide, by decide, no_ca_identity [leafCert, leafCert2] (by decide) (by decide)⟩

/-- C9 (the code departs from it): in the list CA, CA2, client two records
pass the self-signed-CA test, the last of them being CA2. The loop writes both
to the final slot and then overwrites it with the client block, so `out` is
nil, nil, client: the final slot does not hold the block of CA2, the earlier
match CA is not at its own index 0, and no CA block is in any slot. -/
theorem several_ca_all_dropped :
    2 ≤ [caCert, caCert2, leafCert].length ∧
    [caCert, caCert2, leafCert].filter isSelfSignedCA = [caCert, caCert2] ∧
    buildOut [caCert, caCert2, leafCert] = [none, none, some (certBlock leafCert)] ∧
    (buildOut [caCert, caCert2, leafCert])[[caCert, caCert2, leafCert].length - 1]? ≠
      some (some (certBlock caCert2)) ∧
    (buildOut [caCert, caCert2, leafCert])[0]? ≠ some (some (certBlock caCert)) ∧
    some (certBlock caCert) ∉ buildOut [caCert, caCert2, leafCert] ∧
    some (certBlock caCert2) ∉ buildOut [caCert, caCert2, leafCert] := by
  decide

/-! ## isDir / isFile: claims -/

/-- C10 (the code departs from it): the mask in `isFile` and `isDir` is the
decimal 400, which is octal 0620, so the owner-write and group-write bits
satisfy it too. A regular file of mode 0200 and a directory of mode 0020 have
the owner-read bit 0400 clear, yet `isFile` and `isDir` return true. -/
theorem mask_400_is_not_owner_read :
    (400 : Nat) = 0o620 ∧
    isFile (fun _ => some 0o200) "id" = true ∧ (0o200 : Nat) &&& 0o400 = 0 ∧
    isDir (fun _ => some (ModeDir + 0o020)) "home" = true ∧ (ModeDir + 0o020) &&& 0o400 = 0 ∧
    isFile (fun _ => none) "id" = false ∧ isDir (fun _ => none) "home" = false := by
  decide

/-! ## RequestCertificate: claims -/

/-- C3: when the request and the read of the body succeed with body `b` (at
most 4096 bytes) and the status code `c` is not 200, `RequestCertificate`
returns the `fmt.Errorf` error whose text is the decimal `c`, then " - ",
then `b`; the output file is left as it was and the only library calls are
NewRequest, Do, ReadAll and the close of the body. When the status code is
200 that error is never the result. -/
theorem http_status_error (env : Env) (fuel : Nat) (url home id : String) (data : Bytes)
    (w : World) (res : Response) (b : Bytes)
    (hreq : env.NewRequest "POST" url data = none)
    (hdo : env.Do url ("ant-" ++ id) data = .ok res)
    (hread : readAllLimit res.Body res.BodyErr 4096 = .ok b) :
    b.length ≤ 4096 ∧
    (res.StatusCode ≠ 200 →
      RequestCertificate env fuel url home id data w =
        some (.returned (some (.errorf (fmtD res.StatusCode ++ str " - " ++ b))),
          World.mk w.file (w.calls ++ [.NewRequest "POST" url data,
            .Do url ("ant-" ++ id) data, .ReadAll 4096, .BodyClose]))) ∧
    (res.StatusCode = 200 → ∀ w2,
      RequestCertificate env fuel url home id data w ≠
        some (.returned (some (.errorf (fmtD res.StatusCode ++ str " - " ++ b))), w2)) := by
  refine ⟨readAllLimit_length _ _ _ _ hread, ?_, ?_⟩
  · intro hst
    rw [RequestCertificate_afterResponse env fuel url home id data w res hreq hdo]
    simp [afterResponse, hread, hst, World.log]
  · intro hst w2
    rw [RequestCertificate_afterResponse env fuel url home id data w res hreq hdo]
    have h200 : fmtD 200 = [50, 48, 48] := by decide
    have hfail : str "failed to parse certificate PEM" ≠ [50, 48, 48] ++ str " - " ++ b := by
      have e : str "failed to parse certificate PEM" = 102 :: str "ailed to parse certificate PEM" := by
        decide
      rw [e]
      simp
    have hfew : str "crt must have 2 concatenated certificates: client + CA" ≠
        [50, 48, 48] ++ str " - " ++ b := by
      have e : str "crt must have 2 concatenated certificates: client + CA" =
          99 :: str "rt must have 2 concatenated certificates: client + CA" := by
        decide
      rw [e]
      simp
    simp only [afterResponse, hread, hst, h200, ne_eq, not_true_eq_false, if_false]
    unfold decodeStage
    cases hloop : pemLoop env.Decode fuel b [] with
    | none => simp
    | some r =>
      cases r with
      | error err =>
        have herr := pemLoop_error _ _ _ _ _ hloop
        subst herr
        simp only [ne_eq, Option.some.injEq, Prod.mk.injEq, Outcome.returned.injEq,
          GoError.errorf.injEq, not_and]
        intro h
        exact absurd h hfail
      | ok blocks =>
        cases hparse : env.ParseCertificates blocks with
        | error err => simp [hparse]
        | ok certs =>
          simp only [hparse]
          by_cases hlen : certs.length < 2
          · rw [if_pos hlen]
            simp only [ne_eq, Option.some.injEq, Prod.mk.injEq, Outcome.returned.injEq,
              GoError.errorf.injEq, not_and]
            intro h
            exact absurd h hfew
          · rw [if_neg hlen]
            intro h
            simp only [Option.some.injEq] at h
            have h1 := congrArg Prod.fst h
            exact persist_not_errorf _ _ _ _ _ h1

/-- Witness for C3: status 500 with body "server error". -/
theorem http_status_error_witness :
    (sampleEnv 500 (str "server error")).NewRequest "POST" "https://ca/enroll" [1] = none ∧
    (sampleEnv 500 (str "server error")).Do "https://ca/enroll" ("ant-" ++ "id") [1] =
      .ok (Response.mk 500 (str "server error") none) ∧
    readAllLimit (str "server error") none 4096 = .ok (str "server error") ∧
    RequestCertificate (sampleEnv 500 (str "server error")) 0 "https://ca/enroll" "home" "id" [1]
        emptyWorld =
      some (.returned (some (.errorf (str "500 - server error"))),
        World.mk none [.NewRequest "POST" "https://ca/enroll" [1],
          .Do "https://ca/enroll" "ant-id" [1], .ReadAll 4096, .BodyClose]) :=
  ⟨rfl, rfl, rfl,
   (http_status_error (sampleEnv 500 (str "server error")) 0 "https://ca/enroll" "home" "id" [1]
      emptyWorld (Response.mk 500 (str "server error") none) (str "server error")
      rfl rfl rfl).2.1 (by decide)⟩

/-- C2: when the response has status 200 and its body decodes (PEM loop, then
`x509.ParseCertificates`) to fewer than 2 certificates, `RequestCertificate`
returns the non-nil error of line 137. The output file is as before, and the
log shows no OpenFile and no Encode call. -/
theorem fewer_than_two_rejected (env : Env) (fuel : Nat) (url home id : String) (data : Bytes)
    (w : World) (res : Response) (b blocks : Bytes) (certs : List Certificate)
    (hreq : env.NewRequest "POST" url data = none)
    (hdo : env.Do url ("ant-" ++ id) data = .ok res)
    (hread : readAllLimit res.Body res.BodyErr 4096 = .ok b)
    (hst : res.StatusCode = 200)
    (hloop : pemLoop env.Decode fuel b [] = some (.ok blocks))
    (hparse : env.ParseCertificates blocks = .ok certs)
    (hlen : certs.length < 2) :
    RequestCertificate env fuel url home id data w =
      some (.returned (some (.errorf
          (str "crt must have 2 concatenated certificates: client + CA"))),
        World.mk w.file (w.calls ++ [.NewRequest "POST" url data,
          .Do url ("ant-" ++ id) data, .ReadAll 4096, .ParseCertificates blocks,
          .BodyClose])) := by
  rw [RequestCertificate_afterResponse env fuel url home id data w res hreq hdo]
  simp [afterResponse, hread, hst, decodeStage, hloop, hparse, hlen, World.log]

/-- Witness for C2: a body holding the single certificate `caCert`. -/
theorem fewer_than_two_rejected_witness :
    pemLoop framedDecode 1 (pemConcat framedEncode [caCert]) [] = some (.ok caCert.Raw) ∧
    sampleParse caCert.Raw = .ok [caCert] ∧ [caCert].length < 2 ∧
    RequestCertificate (sampleEnv 200 (pemConcat framedEncode [caCert])) 1 "https://ca/enroll"
        "home" "id" [1] (World.mk (some [9]) []) =
      some (.returned (some (.errorf
          (str "crt must have 2 concatenated certificates: client + CA"))),
        World.mk (some [9]) [.NewRequest "POST" "https://ca/enroll" [1],
          .Do "https://ca/enroll" "ant-id" [1], .ReadAll 4096, .ParseCertificates caCert.Raw,
          .BodyClose]) :=
  ⟨rfl, rfl, by decide,
   fewer_than_two_rejected (sampleEnv 200 (pemConcat framedEncode [caCert])) 1
     "https://ca/enroll" "home" "id" [1] (World.mk (some [9]) [])
     (Response.mk 200 (pemConcat framedEncode [caCert]) none) (pemConcat framedEncode [caCert])
     caCert.Raw [caCert] rfl rfl rfl rfl rfl rfl (by decide)⟩

/-- C5: the response has status 200 and body `b`. If the PEM loop, after
extracting the blocks `bs` (possibly none), stands at a buffer `t` from which
`pem.Decode` extracts no block, then `RequestCertificate` returns the error
"failed to parse certificate PEM"; the log shows no ParseCertificates call and
no file call, and the output file is as before. And the loop ends
successfully only if its last iteration extracted a block and left an empty
buffer. -/
theorem malformed_pem_rejected (env : Env) (fuel : Nat) (url home id : String) (data : Bytes)
    (w : World) (res : Response) (b : Bytes)
    (hreq : env.NewRequest "POST" url data = none)
    (hdo : env.Do url ("ant-" ++ id) data = .ok res)
    (hread : readAllLimit res.Body res.BodyErr 4096 = .ok b)
    (hst : res.StatusCode = 200) :
    (∀ (bs : List Block) (t : Bytes), extracts env.Decode b bs t = true →
      (env.Decode t).1 = none → bs.length < fuel →
      RequestCertificate env fuel url home id data w =
        some (.returned (some (.errorf (str "failed to parse certificate PEM"))),
          World.mk w.file (w.calls ++ [.NewRequest "POST" url data,
            .Do url ("ant-" ++ id) data, .ReadAll 4096, .BodyClose]))) ∧
    (∀ blocks, pemLoop env.Decode fuel b [] = some (.ok blocks) →
      ∃ bs last blk, extracts env.Decode b bs last = true ∧
        env.Decode last = (some blk, []) ∧ blocks = payloads bs ++ blk.Bytes) := by
  constructor
  · intro bs t hex hnone hfuel
    have hloop := pemLoop_fails env.Decode bs t fuel b [] hex hnone hfuel
    rw [RequestCertificate_afterResponse env fuel url home id data w res hreq hdo]
    simp [afterResponse, hread, hst, decodeStage, hloop, World.log]
  · intro blocks hloop
    obtain ⟨bs, last, blk, hex, hlast, hbl⟩ := pemLoop_ok _ _ _ _ _ hloop
    exact ⟨bs, last, blk, hex, hlast, by simpa using hbl⟩

/-- Witness for C5: one well-formed frame followed by the stray byte 99. -/
theorem malformed_pem_rejected_witness :
    extracts framedDecode (pemConcat framedEncode [caCert] ++ [99]) [certBlock caCert] [99]
      = true ∧
    (framedDecode [99]).1 = none ∧
    RequestCertificate (sampleEnv 200 (pemConcat framedEncode [caCert] ++ [99])) 2
        "https://ca/enroll" "home" "id" [1] emptyWorld =
      some (.returned (some (.errorf (str "failed to parse certificate PEM"))),
        World.mk none [.NewRequest "POST" "https://ca/enroll" [1],
          .Do "https://ca/enroll" "ant-id" [1], .ReadAll 4096, .BodyClose]) :=
  ⟨by decide, by decide,
   (malformed_pem_rejected (sampleEnv 200 (pemConcat framedEncode [caCert] ++ [99])) 2
     "https://ca/enroll" "home" "id" [1] emptyWorld
     (Response.mk 200 (pemConcat framedEncode [caCert] ++ [99]) none)
     (pemConcat framedEncode [caCert] ++ [99]) rfl rfl (by decide) rfl).1
     [certBlock caCert] [99] (by decide) (by decide) (by decide)⟩

/-- C4 (the code departs from it): the library opens the file, fails the
first `pem.Encode` call (nothing written, error 28) and succeeds on the rest.
`RequestCertificate` returns nil, with only the second block of the chain in
the file: the value returned by `pem.Encode` is dropped at line 158. -/
theorem write_error_is_dropped :
    ((diskFullEnv (pemConcat framedEncode [leafCert, caCert])).Encode 0
        (some (certBlock leafCert))).status = .failed (LibError.mk 28) ∧
    RequestCertificate (diskFullEnv (pemConcat framedEncode [leafCert, caCert])) 2
        "https://ca/enroll" "home" "id" [1] emptyWorld =
      some (.returned none,
        World.mk (some (framedEncode (certBlock caCert)))
          [.NewRequest "POST" "https://ca/enroll" [1], .Do "https://ca/enroll" "ant-id" [1],
           .ReadAll 4096, .ParseCertificates (derConcat [leafCert, caCert]),
           .OpenFile "home/ant.crt" [.O_APPEND, .O_CREATE, .O_WRONLY] 0o640,
           .Encode (some (certBlock leafCert)), .Encode (some (certBlock caCert)),
           .FileClose, .BodyClose]) := by
  decide

/-- C6: for n >= 1 certificates, run the decode stage on the concatenation of
their PEM encodings, `pem.Decode` undoing `enc` on such buffers and
`x509.ParseCertificates` reading the concatenated DER back. With fuel for n
iterations the PEM loop ends with the DER payloads concatenated in input
order, and the stage yields exactly the n certificates in input order. -/
theorem decode_concatenated_pem (env : Env) (enc : Block → Bytes) (certs : List Certificate)
    (fuel : Nat) (w : World)
    (hn : 1 ≤ certs.length)
    (henc : ∀ c, enc (certBlock c) ≠ [])
    (hdec : ∀ c cs, (env.Decode (enc (certBlock c) ++ pemConcat enc cs)).1.map Block.Bytes
        = some c.Raw ∧ (env.Decode (enc (certBlock c) ++ pemConcat enc cs)).2 = pemConcat enc cs)
    (hparse : env.ParseCertificates (derConcat certs) = .ok certs)
    (hfuel : certs.length ≤ fuel) :
    pemLoop env.Decode fuel (pemConcat enc certs) [] = some (.ok (derConcat certs)) ∧
    decodeStage env fuel (pemConcat enc certs) w =
      some (.ok certs, w.log (.ParseCertificates (derConcat certs))) := by
  cases certs with
  | nil => simp at hn
  | cons c cs =>
    simp only [List.length_cons] at hfuel
    have hloop := pemLoop_pemConcat env.Decode enc henc hdec c cs fuel [] (by omega)
    simp only [List.nil_append] at hloop
    refine ⟨hloop, ?_⟩
    simp [decodeStage, hloop, hparse]

/-- Witness for C6: the chain client, CA under the sample framing. -/
theorem decode_concatenated_pem_witness :
    1 ≤ [leafCert, caCert].length ∧
    (∀ c, framedEncode (certBlock c) ≠ []) ∧
    sampleParse (derConcat [leafCert, caCert]) = .ok [leafCert, caCert] ∧
    pemLoop framedDecode 2 (pemConcat framedEncode [leafCert, caCert]) [] =
      some (.ok (leafCert.Raw ++ caCert.Raw)) ∧
    decodeStage (sampleEnv 200 []) 2 (pemConcat framedEncode [leafCert, caCert]) emptyWorld =
      some (.ok [leafCert, caCert],
        World.mk none [.ParseCertificates (leafCert.Raw ++ caCert.Raw)]) :=
  ⟨by decide, fun c => by simp [framedEncode], by decide,
   (decode_concatenated_pem (sampleEnv 200 []) framedEncode [leafCert, caCert] 2 emptyWorld
     (by decide) (fun c => by simp [framedEncode])
     (fun c cs => framed_round_trip c cs) (by decide) (by decide)).1,
   (decode_concatenated_pem (sampleEnv 200 []) framedEncode [leafCert, caCert] 2 emptyWorld
     (by decide) (fun c => by simp [framedEncode])
     (fun c cs => framed_round_trip c cs) (by decide) (by decide)).2⟩

end Ant
